import Mathlib

/-!
Shallow embedding of `src/runtime/src/runtime.rs`: the transaction execution
core of the runtime.  Pure data (pubkeys, accounts, errors) is embedded as
Lean data; mutation through `&mut` references is embedded by explicit state
passing (handlers return the final values of the accounts they were handed,
and the executors write those values back); Rust panics that the embedded
claims exercise are embedded as `Option.none`.
-/

namespace SolanaRuntime

/-- A program or account identifier (`Pubkey` in the SDK): an opaque
fixed-width byte string compared by value, embedded as a natural number. -/
abbrev Pubkey := Nat

/-- Modelled from the spec: the distinguished system program identifier
(`system_program::id()` lives in the SDK crate, outside `src/`). -/
def systemProgramId : Pubkey := 0

/-- Modelled from the spec: `system_program::check_id` recognizes the
distinguished system program id by value equality. -/
def check_id (program_id : Pubkey) : Bool :=
  program_id == systemProgramId

/-- `solana_sdk::account::Account` restricted to the fields the runtime
reads: owner program id, balance in lamports (a `u64`, embedded as `Nat`),
and the opaque data bytes. -/
structure Account where
  owner : Pubkey
  lamports : Nat
  data : List Nat
deriving DecidableEq, Repr, Inhabited

/-- `solana_sdk::instruction::InstructionError`: the error kinds the runtime
itself produces, plus `CustomError` payloads and a stand-in `Other` for every
remaining SDK variant (`GenericError` is the one the repository's own tests
use by name). -/
inductive InstructionError where
  | GenericError
  | DuplicateAccountIndex
  | ModifiedProgramId
  | ExternalAccountLamportSpend
  | ExternalAccountDataModified
  | UnbalancedInstruction
  | CustomError (bytes : List Nat)
  | Other (code : Nat)
deriving DecidableEq, Repr

/-- `solana_sdk::transaction::TransactionError` restricted to the variant the
runtime produces: an instruction error labelled with the instruction index.
The index field is a `u8` in the source (`instruction_index as u8`). -/
inductive TransactionError where
  | InstructionError (index : Nat) (err : InstructionError)
deriving DecidableEq, Repr

/-- Return true if the slice has any duplicate elements.  The source loops
`for i in 1..xs.len()` and tests `xs[i..].contains(&xs[i-1])`; recursing on
the list performs exactly those membership tests. -/
def has_duplicates {α : Type} [DecidableEq α] : List α → Bool
  | [] => false
  | x :: rest => rest.contains x || has_duplicates rest

/-- Get mut references to a subset of elements.  The source returns
`Vec<&'a mut T>`; the embedding returns the referenced values, and mutation
through the references is performed by an explicit write-back in
`execute_transaction`.  The `u8` indexes are embedded as `Nat`; an
out-of-range index panics in Rust (bounds are the loading stage's
responsibility) and is embedded with a default element, which no claim
exercises. -/
def get_subset_unchecked_mut {α : Type} [Inhabited α] (xs : List α)
    (indexes : List Nat) : Except InstructionError (List α) :=
  if has_duplicates indexes then
    .error .DuplicateAccountIndex
  else
    .ok (indexes.map fun i => xs.getD i default)

/-- The invariant verifier `verify_instruction`: checks one post-account
against its pre-snapshot `(pre_program_id, pre_lamports, pre_data)` under the
invoked `program_id`, with the source's three early-return checks in
order. -/
def verify_instruction (program_id : Pubkey) (pre_program_id : Pubkey)
    (pre_lamports : Nat) (pre_data : List Nat) (account : Account) :
    Except InstructionError Unit :=
  if pre_program_id != account.owner && !(check_id program_id) then
    .error .ModifiedProgramId
  else if program_id != account.owner && decide (pre_lamports > account.lamports) then
    .error .ExternalAccountLamportSpend
  else if program_id != account.owner && !(check_id program_id)
      && pre_data != account.data then
    .error .ExternalAccountDataModified
  else
    .ok ()

/-- The error canonicalizer `verify_error`: `Vec::truncate(32)` keeps the
first `min(32, len)` bytes, which is `List.take 32`. -/
def verify_error : InstructionError → InstructionError
  | .CustomError bytes => .CustomError (bytes.take 32)
  | e => e

/-- `solana_sdk::account::KeyedAccount`: an account key, an is-signer flag,
and a mutable reference to the account (embedded by value). -/
structure KeyedAccount where
  key : Pubkey
  is_signer : Bool
  account : Account
deriving DecidableEq, Repr, Inhabited

/-- The outcome of one handler call on a mutable keyed-account slice: the
final values of the slice's accounts (position by position) together with the
returned `Result<(), InstructionError>`. -/
abbrev HandlerResult := List Account × Except InstructionError Unit

/-- The handler ABI `ProcessInstruction`:
`fn(&Pubkey, &mut [KeyedAccount], &[u8], u64) -> Result<(), InstructionError>`.
Mutation through the `&mut` slice is embedded by returning the accounts'
final values. -/
abbrev ProcessInstruction := Pubkey → List KeyedAccount → List Nat → Nat → HandlerResult

/-- `solana_sdk::transaction::CompiledInstruction`: a loader-slot index, the
`u8` indexes (embedded as `Nat`) into the transaction's account array, and
the opaque instruction data. -/
structure Instruction where
  program_ids_index : Nat
  accounts : List Nat
  data : List Nat
deriving DecidableEq, Repr, Inhabited

/-- `solana_sdk::transaction::Transaction` restricted to what the runtime
reads: the account-key array, the number of signatures (only
`tx.signatures.len()` is consulted), the program-id array, and the
instruction list. -/
structure Transaction where
  account_keys : List Pubkey
  num_signatures : Nat
  program_ids : List Pubkey
  instructions : List Instruction
deriving Inhabited

/-- Modelled from the spec: `tx.program_id(i)` (SDK, outside `src/`) recovers
the program identifier of instruction `i`, namely the program-id array entry
selected by the instruction's `program_ids_index` slot. -/
def Transaction.program_id (tx : Transaction) (i : Nat) : Pubkey :=
  tx.program_ids.getD (tx.instructions.getD i default).program_ids_index 0

/-- Modelled from the spec: `create_keyed_accounts` (SDK, outside `src/`)
turns the executable `(key, account)` pairs into keyed accounts that are not
signers. -/
def create_keyed_accounts (executable_accounts : List (Pubkey × Account)) :
    List KeyedAccount :=
  executable_accounts.map fun pa => ⟨pa.1, false, pa.2⟩

/-- The keyed accounts built from the instruction's account-index list
(`keyed_accounts2` in `process_instruction`): each index is paired with its
key and an is-signer flag (`index < tx.signatures.len()`), then zipped with
the mutable program accounts. -/
def keyed_program_accounts (tx : Transaction) (instruction_index : Nat)
    (program_accounts : List Account) : List KeyedAccount :=
  (((tx.instructions.getD instruction_index default).accounts.map fun index =>
      (tx.account_keys.getD index 0, decide (index < tx.num_signatures))).zip
    program_accounts).map fun p => ⟨p.1.1, p.1.2, p.2⟩

/-- Write a handler's final account values back over the keyed-account slice
it was handed: position `j` of the slice takes the handler's `j`-th final
value (in Rust the mutation is in place, so the written list always has the
slice's length). -/
def writeSlice (slice : List KeyedAccount) (written : List Account) :
    List KeyedAccount :=
  (slice.zip written).map (fun p => { p.1 with account := p.2 })
    ++ slice.drop written.length

/-- The dispatcher registry: ordered `(program id, handler)` pairs.
`Runtime::add_instruction_processor` pushes at the back, so insertion order
is list order and lookup is a linear scan from the front. -/
abbrev Runtime := List (Pubkey × ProcessInstruction)

/-- `Runtime::add_instruction_processor`: append a `(program id, handler)`
entry to the registry. -/
def add_instruction_processor (rt : Runtime) (program_id : Pubkey)
    (h : ProcessInstruction) : Runtime :=
  rt ++ [(program_id, h)]

instance {ε α : Type} [DecidableEq ε] [DecidableEq α] : DecidableEq (Except ε α) := fun a b =>
  match a, b with
  | .ok x, .ok y =>
    if h : x = y then .isTrue (by rw [h])
    else .isFalse (by intro hh; cases hh; exact h rfl)
  | .error x, .error y =>
    if h : x = y then .isTrue (by rw [h])
    else .isFalse (by intro hh; cases hh; exact h rfl)
  | .ok _, .error _ => .isFalse (by intro hh; cases hh)
  | .error _, .ok _ => .isFalse (by intro hh; cases hh)

/-- The post-state of one `process_instruction`/`execute_instruction` call:
final executable (loader) accounts, final program accounts, and the
returned result. -/
structure InstructionOutcome where
  executable_accounts : List (Pubkey × Account)
  program_accounts : List Account
  result : Except InstructionError Unit
deriving DecidableEq, Repr

/-- Split the post-image of the combined keyed-account vector back into the
executable accounts (whose keys the handler cannot touch) and the program
accounts (positions beyond the zip's reach keep their input values, exactly
as the untouched `&mut` referents do in Rust). -/
def splitOutcome (executable_accounts : List (Pubkey × Account))
    (program_accounts : List Account) (post : List KeyedAccount)
    (res : Except InstructionError Unit) : InstructionOutcome :=
  let written := (post.drop executable_accounts.length).map fun ka => ka.account
  { executable_accounts :=
      (executable_accounts.zip (post.take executable_accounts.length)).map
        fun p => (p.1.1, p.2.account),
    program_accounts := written ++ program_accounts.drop written.length,
    result := res }

/-- `Runtime::process_instruction`: build the combined keyed-account vector
(executable accounts first, then the instruction's accounts), scan the
registry in insertion order for the instruction's program id, and invoke the
first matching handler on `&mut keyed_accounts[1..]`; on a miss invoke the
native-loader entrypoint (an opaque collaborator outside `src/`, passed here
as the `native_loader` parameter) on the full vector.  Slicing
`keyed_accounts[1..]` when the vector is empty panics in Rust; the panic is
embedded as `none`. -/
def process_instruction (rt : Runtime) (native_loader : ProcessInstruction)
    (tx : Transaction) (instruction_index : Nat)
    (executable_accounts : List (Pubkey × Account))
    (program_accounts : List Account) (tick_height : Nat) :
    Option InstructionOutcome :=
  let program_id := tx.program_id instruction_index
  let inst := tx.instructions.getD instruction_index default
  let keyed_accounts :=
    create_keyed_accounts executable_accounts
      ++ keyed_program_accounts tx instruction_index program_accounts
  match rt.find? (fun e => e.1 == program_id) with
  | some entry =>
    if keyed_accounts.isEmpty then
      none
    else
      let r := entry.2 program_id (keyed_accounts.drop 1) inst.data tick_height
      some (splitOutcome executable_accounts program_accounts
        (keyed_accounts.take 1 ++ writeSlice (keyed_accounts.drop 1) r.1) r.2)
  | none =>
    let r := native_loader program_id keyed_accounts inst.data tick_height
    some (splitOutcome executable_accounts program_accounts
      (writeSlice keyed_accounts r.1) r.2)

/-- One pre-state snapshot entry: `(owner, lamports, data.clone())`. -/
abbrev PreAccount := Pubkey × Nat × List Nat

/-- The post-state verification loop of `execute_instruction`: zip the
pre-snapshots with the post-accounts and run `verify_instruction` on each
pair, propagating the first error. -/
def verify_accounts (program_id : Pubkey) :
    List PreAccount → List Account → Except InstructionError Unit
  | [], _ => .ok ()
  | _, [] => .ok ()
  | pre :: pres, post :: posts =>
    match verify_instruction program_id pre.1 pre.2.1 pre.2.2 post with
    | .error e => .error e
    | .ok _ => verify_accounts program_id pres posts

/-- `Runtime::execute_instruction`: snapshot the program accounts' balances
and `(owner, lamports, data)` triples, call `process_instruction` (mapping a
handler error through `verify_error`), then verify every snapshotted account
and finally the balance-sum conservation. -/
def execute_instruction (rt : Runtime) (native_loader : ProcessInstruction)
    (tx : Transaction) (instruction_index : Nat)
    (executable_accounts : List (Pubkey × Account))
    (program_accounts : List Account) (tick_height : Nat) :
    Option InstructionOutcome :=
  let program_id := tx.program_id instruction_index
  let pre_total := (program_accounts.map fun a => a.lamports).sum
  let pre_data := program_accounts.map fun a => (a.owner, a.lamports, a.data)
  match process_instruction rt native_loader tx instruction_index
      executable_accounts program_accounts tick_height with
  | none => none
  | some o =>
    match o.result with
    | .error e => some { o with result := .error (verify_error e) }
    | .ok _ =>
      match verify_accounts program_id pre_data o.program_accounts with
      | .error e => some { o with result := .error e }
      | .ok _ =>
        let post_total := (o.program_accounts.map fun a => a.lamports).sum
        if pre_total ≠ post_total then
          some { o with result := .error .UnbalancedInstruction }
        else
          some { o with result := .ok () }

/-- The mutable state `execute_transaction` threads through its loop: the
loader slots and the transaction's account array, both mutated in place by
the Rust code. -/
structure TxState where
  loaders : List (List (Pubkey × Account))
  accounts : List Account
deriving DecidableEq, Repr

/-- Write the instruction's (duplicate-free) account subset back into the
transaction account array at its indexes: the in-place mutation performed
through the `&mut` references that `get_subset_unchecked_mut` returned. -/
def write_back (accounts : List Account) (indexes : List Nat)
    (vals : List Account) : List Account :=
  (indexes.zip vals).foldl (fun acc p => acc.set p.1 p.2) accounts

/-- The loop body of `Runtime::execute_transaction`, recursing over the
remaining instructions with `i` the absolute index of the next one: select
the loader slot, build the account subset (a failure maps to
`InstructionError(i as u8, DuplicateAccountIndex)` with the state untouched),
run `execute_instruction` (whose in-place mutations persist even when it
fails), and stop at the first error.  The `as u8` cast is embedded as
`% 256`. -/
def execute_instructions (rt : Runtime) (native_loader : ProcessInstruction)
    (tx : Transaction) (tick_height : Nat) :
    Nat → List Instruction → TxState →
    Option (TxState × Except TransactionError Unit)
  | _, [], st => some (st, .ok ())
  | i, inst :: rest, st =>
    let executable_accounts := st.loaders.getD inst.program_ids_index []
    match get_subset_unchecked_mut st.accounts inst.accounts with
    | .error err => some (st, .error (.InstructionError (i % 256) err))
    | .ok program_accounts =>
      match execute_instruction rt native_loader tx i executable_accounts
          program_accounts tick_height with
      | none => none
      | some o =>
        let st' : TxState :=
          { loaders := st.loaders.set inst.program_ids_index o.executable_accounts,
            accounts := write_back st.accounts inst.accounts o.program_accounts }
        match o.result with
        | .error err => some (st', .error (.InstructionError (i % 256) err))
        | .ok _ =>
          execute_instructions rt native_loader tx tick_height (i + 1) rest st'

/-- `Runtime::execute_transaction`: run the transaction's instructions in
declared order over the loader slots and the account array, returning the
final state and the result (`none` embeds a Rust panic reached inside an
instruction). -/
def execute_transaction (rt : Runtime) (native_loader : ProcessInstruction)
    (tx : Transaction) (loaders : List (List (Pubkey × Account)))
    (tx_accounts : List Account) (tick_height : Nat) :
    Option (TxState × Except TransactionError Unit) :=
  execute_instructions rt native_loader tx tick_height 0 tx.instructions
    ⟨loaders, tx_accounts⟩

/-! ## The spec's invariant-verifier table (for the refinement claim C1) -/

/-- The invariant verifier exactly as the spec's table in §4.5 states it,
rows tested in order; written from the spec's words, to be compared with
`verify_instruction` from the source. -/
def verify_instruction_table (program_id : Pubkey) (pre_owner : Pubkey)
    (pre_balance : Nat) (pre_data : List Nat) (post : Account) :
    Except InstructionError Unit :=
  if pre_owner ≠ post.owner ∧ program_id ≠ systemProgramId then
    .error .ModifiedProgramId
  else if program_id ≠ post.owner ∧ pre_balance > post.lamports then
    .error .ExternalAccountLamportSpend
  else if program_id ≠ post.owner ∧ program_id ≠ systemProgramId
      ∧ pre_data ≠ post.data then
    .error .ExternalAccountDataModified
  else
    .ok ()

/-- C1: for every invoked program id, pre-snapshot and post-account,
`verify_instruction` returns exactly the result given by the spec's table
with rows tested in order: `ModifiedProgramId` if the pre-owner differs from
the post owner and the program is not the system program; else
`ExternalAccountLamportSpend` if the program differs from the post owner and
the pre-balance exceeds the post balance; else
`ExternalAccountDataModified` if the program differs from the post owner, is
not the system program, and the pre-data differs from the post data; else
success. -/
theorem claim_C1 (program_id pre_owner : Pubkey) (pre_balance : Nat)
    (pre_data : List Nat) (post : Account) :
    verify_instruction program_id pre_owner pre_balance pre_data post =
      verify_instruction_table program_id pre_owner pre_balance pre_data post := by
  by_cases h1 : pre_owner = post.owner <;>
  by_cases h2 : program_id = systemProgramId <;>
  by_cases h3 : program_id = post.owner <;>
  by_cases h4 : pre_balance > post.lamports <;>
  by_cases h5 : pre_data = post.data <;>
  simp [verify_instruction, verify_instruction_table, check_id, h1, h2, h3, h4, h5]

/-! ## Claim C7: the error canonicalizer -/

/-- C7: `verify_error` maps `CustomError(bytes)` to
`CustomError(bytes[0..min(32,len)])` and returns every other error kind
unchanged. -/
theorem claim_C7 :
    (∀ bytes : List Nat,
        verify_error (.CustomError bytes) =
          .CustomError (bytes.take (min 32 bytes.length))) ∧
    (∀ e : InstructionError, (∀ bytes, e ≠ .CustomError bytes) →
        verify_error e = e) := by
  constructor
  · intro bytes
    show InstructionError.CustomError (bytes.take 32) =
      .CustomError (bytes.take (min 32 bytes.length))
    rw [← List.take_take, List.take_length]
  · intro e he
    cases e <;> first
      | rfl
      | exact absurd rfl (he _)

/-- Witness for C7 at concrete inputs: a 40-byte custom payload is truncated
to its first 32 bytes, and `GenericError` passes through unchanged. -/
theorem claim_C7_witness :
    verify_error (.CustomError (List.replicate 40 8)) =
      .CustomError (List.replicate 32 8) ∧
    verify_error .GenericError = .GenericError :=
  ⟨by decide, claim_C7.2 .GenericError (fun _ h => nomatch h)⟩

/-! ## Claim C8: exact duplicate detection -/

theorem has_duplicates_iff_not_nodup {α : Type} [DecidableEq α] (xs : List α) :
    has_duplicates xs = true ↔ ¬ xs.Nodup := by
  induction xs with
  | nil => simp [has_duplicates]
  | cons x rest ih =>
    simp only [has_duplicates, Bool.or_eq_true, ih, List.nodup_cons,
      List.elem_iff, decide_eq_true_eq]
    tauto

theorem not_nodup_iff_get_pair {α : Type} (xs : List α) :
    ¬ xs.Nodup ↔ ∃ i j : Fin xs.length, i < j ∧ xs.get i = xs.get j := by
  constructor
  · intro h
    rw [List.nodup_iff_injective_get] at h
    obtain ⟨i, j, hij, hne⟩ := Function.not_injective_iff.mp h
    rcases lt_or_gt_of_ne hne with hlt | hgt
    · exact ⟨i, j, hlt, hij⟩
    · exact ⟨j, i, hgt, hij.symm⟩
  · rintro ⟨i, j, hlt, heq⟩
    exact List.not_nodup_of_get_eq_of_ne xs i j heq (Fin.ne_of_lt hlt)

/-- C8: `has_duplicates xs` is true exactly when two distinct positions of
`xs` hold equal elements; it is false on `[]`, on every single-element list
and on `[1,2]`, true on `[1,2,1]`; and `get_subset_unchecked_mut` returns
`DuplicateAccountIndex` exactly when its index list has duplicates, and
otherwise the elements at the requested indexes. -/
theorem claim_C8 :
    (∀ xs : List Nat, has_duplicates xs = true ↔
        ∃ i j : Fin xs.length, i < j ∧ xs.get i = xs.get j) ∧
    has_duplicates ([] : List Nat) = false ∧
    (∀ x : Nat, has_duplicates [x] = false) ∧
    has_duplicates [1, 2] = false ∧
    has_duplicates [1, 2, 1] = true ∧
    (∀ (xs : List Account) (indexes : List Nat),
      (has_duplicates indexes = true →
        get_subset_unchecked_mut xs indexes = .error .DuplicateAccountIndex) ∧
      (has_duplicates indexes = false →
        get_subset_unchecked_mut xs indexes =
          .ok (indexes.map fun i => xs.getD i default))) := by
  refine ⟨fun xs => ?_, rfl, fun x => by simp [has_duplicates], by decide, by decide,
    fun xs indexes => ⟨fun h => ?_, fun h => ?_⟩⟩
  · rw [has_duplicates_iff_not_nodup, not_nodup_iff_get_pair]
  · simp [get_subset_unchecked_mut, h]
  · simp [get_subset_unchecked_mut, h]

/-- Witness for C8 at concrete inputs: the index list `[0, 0]` is rejected
with `DuplicateAccountIndex`, and `[0, 1]` selects the two elements. -/
theorem claim_C8_witness :
    get_subset_unchecked_mut [Account.mk 3 7 [], Account.mk 4 8 []] [0, 0] =
      .error .DuplicateAccountIndex ∧
    get_subset_unchecked_mut [Account.mk 3 7 [], Account.mk 4 8 []] [0, 1] =
      .ok [Account.mk 3 7 [], Account.mk 4 8 []] :=
  ⟨(claim_C8.2.2.2.2.2 _ [0, 0]).1 (by decide),
   ((claim_C8.2.2.2.2.2 [Account.mk 3 7 [], Account.mk 4 8 []] [0, 1]).2
      (by decide)).trans (by decide)⟩

/-! ## Helper lemmas about the verifier and the instruction executor -/

theorem verify_instruction_ok_lamports {program_id pre_program_id : Pubkey}
    {pre_lamports : Nat} {pre_data : List Nat} {account : Account}
    (h : verify_instruction program_id pre_program_id pre_lamports pre_data account = .ok ())
    (hown : program_id ≠ account.owner) :
    pre_lamports ≤ account.lamports := by
  unfold verify_instruction at h
  split at h
  · simp at h
  · split at h
    · simp at h
    · rename_i hc2
      simp only [Bool.and_eq_true, bne_iff_ne, decide_eq_true_eq, not_and] at hc2
      exact Nat.le_of_not_lt fun hlt => hc2 hown hlt

theorem verify_instruction_error_kinds {program_id pre_program_id : Pubkey}
    {pre_lamports : Nat} {pre_data : List Nat} {account : Account}
    {e : InstructionError}
    (h : verify_instruction program_id pre_program_id pre_lamports pre_data account = .error e) :
    e = .ModifiedProgramId ∨ e = .ExternalAccountLamportSpend ∨
      e = .ExternalAccountDataModified := by
  unfold verify_instruction at h
  split at h
  · exact Or.inl (Except.error.inj h).symm
  · split at h
    · exact Or.inr (Or.inl (Except.error.inj h).symm)
    · split at h
      · exact Or.inr (Or.inr (Except.error.inj h).symm)
      · simp at h

theorem verify_accounts_error_kinds {program_id : Pubkey} :
    ∀ {pres : List PreAccount} {posts : List Account} {e : InstructionError},
      verify_accounts program_id pres posts = .error e →
      e = .ModifiedProgramId ∨ e = .ExternalAccountLamportSpend ∨
        e = .ExternalAccountDataModified := by
  intro pres
  induction pres with
  | nil => intro posts e h; simp [verify_accounts] at h
  | cons pre pres ih =>
    intro posts e h
    cases posts with
    | nil => simp [verify_accounts] at h
    | cons post posts =>
      cases hv : verify_instruction program_id pre.1 pre.2.1 pre.2.2 post with
      | error e0 =>
        simp only [verify_accounts, hv] at h
        exact (Except.error.inj h) ▸ verify_instruction_error_kinds hv
      | ok u =>
        simp only [verify_accounts, hv] at h
        exact ih h

theorem verify_accounts_ok_get (program_id : Pubkey) (pres : List PreAccount) :
    ∀ (posts : List Account), verify_accounts program_id pres posts = .ok () →
      ∀ (j : Nat) (hj : j < pres.length) (hj2 : j < posts.length),
        verify_instruction program_id pres[j].1 pres[j].2.1 pres[j].2.2
          posts[j] = .ok () := by
  induction pres with
  | nil => intro posts h j hj hj2; simp at hj
  | cons pre pres ih =>
    intro posts h j hj hj2
    cases posts with
    | nil => simp at hj2
    | cons post posts =>
      cases hv : verify_instruction program_id pre.1 pre.2.1 pre.2.2 post with
      | error e0 => simp only [verify_accounts, hv] at h; exact absurd h (by simp)
      | ok u =>
        simp only [verify_accounts, hv] at h
        cases j with
        | zero => simpa using hv
        | succ j =>
          simpa using ih posts h j (by simpa using hj) (by simpa using hj2)

theorem execute_instruction_ok_elim {rt : Runtime}
    {native_loader : ProcessInstruction} {tx : Transaction} {i : Nat}
    {ea : List (Pubkey × Account)} {pa : List Account} {tick : Nat}
    {o : InstructionOutcome}
    (h : execute_instruction rt native_loader tx i ea pa tick = some o)
    (hok : o.result = .ok ()) :
    process_instruction rt native_loader tx i ea pa tick = some o ∧
    verify_accounts (tx.program_id i)
      (pa.map fun a => (a.owner, a.lamports, a.data)) o.program_accounts = .ok () ∧
    (o.program_accounts.map fun a => a.lamports).sum =
      (pa.map fun a => a.lamports).sum := by
  cases hp : process_instruction rt native_loader tx i ea pa tick with
  | none =>
    simp only [execute_instruction, hp] at h
    simp at h
  | some po =>
    obtain ⟨pea, ppa, pres⟩ := po
    cases pres with
    | error e =>
      simp only [execute_instruction, hp, Option.some.injEq] at h
      subst h
      simp at hok
    | ok u =>
      cases u
      simp only [execute_instruction, hp] at h
      cases hv : verify_accounts (tx.program_id i)
          (pa.map fun a => (a.owner, a.lamports, a.data)) ppa with
      | error e =>
        simp only [hv, Option.some.injEq] at h
        subst h
        simp at hok
      | ok u2 =>
        cases u2
        simp only [hv] at h
        split at h
        · rename_i hne
          simp only [Option.some.injEq] at h
          subst h
          simp at hok
        · rename_i hne
          simp only [Option.some.injEq] at h
          subst h
          push_neg at hne
          exact ⟨rfl, hv, hne.symm⟩

/-! ## Concrete programs and transactions used in witnesses -/

/-- A handler that leaves every account it is handed unchanged. -/
def identityHandler : ProcessInstruction :=
  fun _ keyed _ _ => (keyed.map fun ka => ka.account, .ok ())

/-- A handler that moves 50 lamports from the first account of its slice to
the second. -/
def transferHandler : ProcessInstruction :=
  fun _ keyed _ _ =>
    (match keyed with
     | [a, b] => [{ a.account with lamports := a.account.lamports - 50 },
                  { b.account with lamports := b.account.lamports + 50 }]
     | l => l.map fun ka => ka.account, .ok ())

/-- A transaction whose single instruction names accounts 0 and 1 and is
dispatched to the system program (program id 0). -/
def sysTransferTx : Transaction :=
  { account_keys := [10, 11], num_signatures := 1, program_ids := [0],
    instructions := [⟨0, [0, 1], []⟩] }

/-- C2: for every instruction, if `execute_instruction` returns success then
the balance sum over the instruction's accounts after the handler equals the
sum before; and if the handler and the per-account verifier succeed but the
sums differ, `execute_instruction` returns `UnbalancedInstruction`. -/
theorem claim_C2 (rt : Runtime) (native_loader : ProcessInstruction)
    (tx : Transaction) (i : Nat) (ea : List (Pubkey × Account))
    (pa : List Account) (tick : Nat) (o : InstructionOutcome)
    (h : execute_instruction rt native_loader tx i ea pa tick = some o) :
    (o.result = .ok () →
      (o.program_accounts.map fun a => a.lamports).sum =
        (pa.map fun a => a.lamports).sum) ∧
    (∀ po : InstructionOutcome,
      process_instruction rt native_loader tx i ea pa tick = some po →
      po.result = .ok () →
      verify_accounts (tx.program_id i)
        (pa.map fun a => (a.owner, a.lamports, a.data)) po.program_accounts = .ok () →
      (po.program_accounts.map fun a => a.lamports).sum ≠
        (pa.map fun a => a.lamports).sum →
      o.result = .error .UnbalancedInstruction) := by
  constructor
  · intro hok
    exact (execute_instruction_ok_elim h hok).2.2
  · intro po hp hok hv hs
    obtain ⟨pea, ppa, pres⟩ := po
    cases pres with
    | error e => simp at hok
    | ok u =>
      cases u
      simp only at hv hs
      simp only [execute_instruction, hp, hv] at h
      rw [if_pos (show _ ≠ _ from fun hh => hs hh.symm)] at h
      simp only [Option.some.injEq] at h
      rw [← h]

/-- Witness for C2: the S1 system transfer of 50 lamports from a 100-lamport
account to an empty one conserves the 100-lamport total. -/
theorem claim_C2_witness :
    (([⟨0, 50, []⟩, ⟨0, 50, []⟩] : List Account).map fun a => a.lamports).sum =
      (([⟨0, 100, []⟩, ⟨0, 0, []⟩] : List Account).map fun a => a.lamports).sum :=
  (claim_C2 [(systemProgramId, transferHandler)] identityHandler sysTransferTx 0
      [(1, ⟨0, 0, []⟩)] [⟨0, 100, []⟩, ⟨0, 0, []⟩] 7
      ⟨[(1, ⟨0, 0, []⟩)], [⟨0, 50, []⟩, ⟨0, 50, []⟩], .ok ()⟩
      (by decide)).1 (by decide)

/-- A handler that gives account 0 (owned by program 1 on entry) to the
system program while moving its 10 lamports to account 1. -/
def giveawayHandler : ProcessInstruction :=
  fun _ _ _ _ => ([⟨0, 0, []⟩, ⟨0, 10, []⟩], .ok ())

/-- A transaction with one system-program instruction naming accounts
0 and 1. -/
def giveawayTx : Transaction :=
  { account_keys := [5, 6], num_signatures := 0, program_ids := [0],
    instructions := [⟨0, [0, 1], []⟩] }

/-- Counterexample to C3 as stated: the system program is invoked on an
account that program 1 owns on entry; the handler assigns the account to the
system program and spends its 10 lamports (into the other account), and
`execute_instruction` accepts the invocation even though the balance of an
account whose owner on entry was not the invoked program has decreased. -/
theorem claim_C3_counterexample :
    execute_instruction [(systemProgramId, giveawayHandler)] identityHandler
        giveawayTx 0 [(1, ⟨0, 0, []⟩)] [⟨1, 10, []⟩, ⟨0, 0, []⟩] 0 =
      some ⟨[(1, ⟨0, 0, []⟩)], [⟨0, 0, []⟩, ⟨0, 10, []⟩], .ok ()⟩ ∧
    (Account.mk 1 10 []).owner ≠ giveawayTx.program_id 0 ∧
    (Account.mk 0 0 []).lamports < (Account.mk 1 10 []).lamports := by
  exact ⟨by decide, by decide, by decide⟩

/-- C3 (amended): after every handler invocation that `execute_instruction`
accepts as successful, every account in the instruction's account list whose
owner *on exit* is not the invoked program has a balance that has not
decreased — for every invoked program id including the system program.  (The
source checks the post owner, not the entry owner: a program may not spend
from an account it does not own on exit, but the system program may acquire
an account and spend from it in the same instruction.) -/
theorem claim_C3 (rt : Runtime) (native_loader : ProcessInstruction)
    (tx : Transaction) (i : Nat) (ea : List (Pubkey × Account))
    (pa : List Account) (tick : Nat) (o : InstructionOutcome) (j : Nat)
    (h : execute_instruction rt native_loader tx i ea pa tick = some o)
    (hok : o.result = .ok ()) (hj : j < pa.length)
    (hj2 : j < o.program_accounts.length)
    (hown : o.program_accounts[j].owner ≠ tx.program_id i) :
    pa[j].lamports ≤ o.program_accounts[j].lamports := by
  obtain ⟨hp, hv, hs⟩ := execute_instruction_ok_elim h hok
  have hg := verify_accounts_ok_get (tx.program_id i) _ _ hv j
    (by simpa using hj) hj2
  simp only [List.getElem_map] at hg
  exact verify_instruction_ok_lamports hg (Ne.symm hown)

/-- Witness for C3 (amended) at a concrete input: a successful no-op
invocation of program 9 on an account owned by program 2 leaves its
7-lamport balance undiminished. -/
theorem claim_C3_witness :
    (7 : Nat) ≤ (Account.mk 2 7 []).lamports :=
  claim_C3 [] identityHandler
    { account_keys := [3], num_signatures := 0, program_ids := [9],
      instructions := [⟨0, [0], []⟩] }
    0 [] [⟨2, 7, []⟩] 0 ⟨[], [⟨2, 7, []⟩], .ok ()⟩ 0
    (by decide) (by decide) (by decide) (by decide) (by decide)

/-- C6: every error surfaced by `execute_instruction` that is a
`CustomError(b)` has `|b| ≤ 32`, for every handler result including custom
payloads longer than 32 bytes. -/
theorem claim_C6 (rt : Runtime) (native_loader : ProcessInstruction)
    (tx : Transaction) (i : Nat) (ea : List (Pubkey × Account))
    (pa : List Account) (tick : Nat) (o : InstructionOutcome)
    (bytes : List Nat)
    (h : execute_instruction rt native_loader tx i ea pa tick = some o)
    (hres : o.result = .error (.CustomError bytes)) :
    bytes.length ≤ 32 := by
  cases hp : process_instruction rt native_loader tx i ea pa tick with
  | none =>
    simp only [execute_instruction, hp] at h
    simp at h
  | some po =>
    obtain ⟨pea, ppa, pres⟩ := po
    cases pres with
    | error e =>
      simp only [execute_instruction, hp, Option.some.injEq] at h
      subst h
      have he : verify_error e = .CustomError bytes := by simpa using hres
      cases e with
      | CustomError b =>
        simp only [verify_error] at he
        rw [← InstructionError.CustomError.inj he]
        exact List.length_take_le 32 b
      | GenericError => simp [verify_error] at he
      | DuplicateAccountIndex => simp [verify_error] at he
      | ModifiedProgramId => simp [verify_error] at he
      | ExternalAccountLamportSpend => simp [verify_error] at he
      | ExternalAccountDataModified => simp [verify_error] at he
      | UnbalancedInstruction => simp [verify_error] at he
      | Other c => simp [verify_error] at he
    | ok u =>
      cases u
      simp only [execute_instruction, hp] at h
      cases hv : verify_accounts (tx.program_id i)
          (pa.map fun a => (a.owner, a.lamports, a.data)) ppa with
      | error e =>
        simp only [hv, Option.some.injEq] at h
        subst h
        have he : e = .CustomError bytes := by simpa using hres
        rcases verify_accounts_error_kinds hv with h1 | h1 | h1 <;>
          rw [h1] at he <;> exact absurd he (by simp)
      | ok u2 =>
        cases u2
        simp only [hv] at h
        split at h <;> simp only [Option.some.injEq] at h <;> subst h <;>
          simp at hres

/-- A handler that rejects with a 40-byte custom error payload. -/
def bigCustomErrHandler : ProcessInstruction :=
  fun _ keyed _ _ =>
    (keyed.map fun ka => ka.account, .error (.CustomError (List.replicate 40 8)))

/-- Witness for C6 at a concrete input: a handler raising a 40-byte custom
error surfaces as a 32-byte payload, which is within the bound. -/
theorem claim_C6_witness : (List.replicate (32 : Nat) (8 : Nat)).length ≤ 32 :=
  claim_C6 [(systemProgramId, bigCustomErrHandler)] identityHandler
    giveawayTx 0 [(1, ⟨0, 0, []⟩)] [⟨1, 10, []⟩, ⟨0, 0, []⟩] 0
    ⟨[(1, ⟨0, 0, []⟩)], [⟨1, 10, []⟩, ⟨0, 0, []⟩],
      .error (.CustomError (List.replicate 32 8))⟩
    (List.replicate 32 8) (by decide) (by decide)

/-- C10: the post-state verification of `execute_instruction` reads only the
instruction's accounts: when the handler call succeeds, the call succeeds
exactly when the instruction-listed accounts pass the verifier and the
balance sums match — with no condition at all on what the handler did to the
executable (loader) accounts. -/
theorem claim_C10 (rt : Runtime) (native_loader : ProcessInstruction)
    (tx : Transaction) (i : Nat) (ea : List (Pubkey × Account))
    (pa : List Account) (tick : Nat) (po : InstructionOutcome)
    (hp : process_instruction rt native_loader tx i ea pa tick = some po)
    (hok : po.result = .ok ()) :
    execute_instruction rt native_loader tx i ea pa tick = some po ↔
      (verify_accounts (tx.program_id i)
          (pa.map fun a => (a.owner, a.lamports, a.data)) po.program_accounts = .ok () ∧
        (po.program_accounts.map fun a => a.lamports).sum =
          (pa.map fun a => a.lamports).sum) := by
  obtain ⟨pea, ppa, pres⟩ := po
  cases pres with
  | error e => simp at hok
  | ok u =>
    cases u
    simp only [execute_instruction, hp]
    constructor
    · intro h
      cases hv : verify_accounts (tx.program_id i)
          (pa.map fun a => (a.owner, a.lamports, a.data)) ppa with
      | error e =>
        simp only [hv] at h
        simp at h
      | ok u2 =>
        cases u2
        simp only [hv] at h
        refine ⟨rfl, ?_⟩
        by_contra hne
        rw [if_pos (show _ ≠ _ from fun hh => hne hh.symm)] at h
        simp at h
    · rintro ⟨hv, hs⟩
      simp only [hv]
      rw [if_neg (show ¬ _ ≠ _ from fun hh => hh hs.symm)]

/-- A handler that overwrites the second executable (loader) account it can
see while leaving the program accounts untouched. -/
def loaderTrashHandler : ProcessInstruction :=
  fun _ keyed _ _ =>
    (match keyed with
     | [_, p] => [⟨77, 123, [9, 9]⟩, p.account]
     | l => l.map fun ka => ka.account, .ok ())

/-- A transaction dispatching its single one-account instruction to
program 9. -/
def prog9Tx : Transaction :=
  { account_keys := [3], num_signatures := 0, program_ids := [9],
    instructions := [⟨0, [0], []⟩] }

/-- Witness for C10 at a concrete input: the handler rewrites a loader
account's owner, balance and data, yet `execute_instruction` succeeds
because the single instruction-listed account verifies and its balance sum
is unchanged. -/
theorem claim_C10_witness :
    execute_instruction [(9, loaderTrashHandler)] identityHandler prog9Tx 0
        [(1, ⟨1, 0, [1]⟩), (2, ⟨2, 5, [2]⟩)] [⟨9, 7, []⟩] 0 =
      some ⟨[(1, ⟨1, 0, [1]⟩), (2, ⟨77, 123, [9, 9]⟩)], [⟨9, 7, []⟩], .ok ()⟩ ∧
    ([(1, (⟨1, 0, [1]⟩ : Account)), (2, ⟨77, 123, [9, 9]⟩)] ≠
      [(1, (⟨1, 0, [1]⟩ : Account)), (2, ⟨2, 5, [2]⟩)]) :=
  ⟨(claim_C10 [(9, loaderTrashHandler)] identityHandler prog9Tx 0
      [(1, ⟨1, 0, [1]⟩), (2, ⟨2, 5, [2]⟩)] [⟨9, 7, []⟩] 0
      ⟨[(1, ⟨1, 0, [1]⟩), (2, ⟨77, 123, [9, 9]⟩)], [⟨9, 7, []⟩], .ok ()⟩
      (by decide) (by decide)).mpr ⟨by decide, by decide⟩,
   by decide⟩

/-! ## Claims C5 and C9: dispatch -/

theorem find?_first_match (pre rest : Runtime) (pid : Pubkey)
    (h : ProcessInstruction) (hpre : ∀ e ∈ pre, e.1 ≠ pid) :
    (pre ++ (pid, h) :: rest).find? (fun e => e.1 == pid) = some (pid, h) := by
  rw [List.find?_append, List.find?_eq_none.mpr fun x hx => by simpa using hpre x hx]
  simp [List.find?]

/-- C5: `process_instruction` scans the registry in insertion order and
invokes the handler of the first entry whose program id equals the
instruction's program id, passing it the combined keyed-account slice with
the first executable-account entry removed; when no registry entry matches,
it invokes the native-loader entrypoint on the full keyed-account slice. -/
theorem claim_C5 (pre rest : Runtime) (h : ProcessInstruction)
    (native_loader : ProcessInstruction) (tx : Transaction) (i : Nat)
    (ea : List (Pubkey × Account)) (pa : List Account) (tick : Nat)
    (hpre : ∀ e ∈ pre, e.1 ≠ tx.program_id i) (hea : ea ≠ []) :
    (process_instruction (pre ++ (tx.program_id i, h) :: rest) native_loader
        tx i ea pa tick =
      some (splitOutcome ea pa
        ((create_keyed_accounts ea ++ keyed_program_accounts tx i pa).take 1 ++
          writeSlice (create_keyed_accounts (ea.drop 1) ++ keyed_program_accounts tx i pa)
            (h (tx.program_id i)
              (create_keyed_accounts (ea.drop 1) ++ keyed_program_accounts tx i pa)
              (tx.instructions.getD i default).data tick).1)
        (h (tx.program_id i)
          (create_keyed_accounts (ea.drop 1) ++ keyed_program_accounts tx i pa)
          (tx.instructions.getD i default).data tick).2)) ∧
    (∀ rt : Runtime, (∀ e ∈ rt, e.1 ≠ tx.program_id i) →
      process_instruction rt native_loader tx i ea pa tick =
        some (splitOutcome ea pa
          (writeSlice (create_keyed_accounts ea ++ keyed_program_accounts tx i pa)
            (native_loader (tx.program_id i)
              (create_keyed_accounts ea ++ keyed_program_accounts tx i pa)
              (tx.instructions.getD i default).data tick).1)
          (native_loader (tx.program_id i)
            (create_keyed_accounts ea ++ keyed_program_accounts tx i pa)
            (tx.instructions.getD i default).data tick).2)) := by
  obtain ⟨a, ea2, rfl⟩ := List.exists_cons_of_ne_nil hea
  constructor
  · simp only [process_instruction, find?_first_match pre rest _ h hpre]
    simp [create_keyed_accounts]
  · intro rt hrt
    have hnone : rt.find? (fun e => e.1 == tx.program_id i) = none :=
      List.find?_eq_none.mpr fun x hx => by simpa using hrt x hx
    simp only [process_instruction, hnone]

/-- Witness for C5 at concrete inputs: with registry
`[(3, identity), (0, transfer), (0, identity)]` the first entry matching
program id 0 — the transfer handler, not the later identity entry — runs on
the slice without the loader account and moves the 50 lamports. -/
theorem claim_C5_witness :
    process_instruction
        [(3, identityHandler), (0, transferHandler), (0, identityHandler)]
        identityHandler sysTransferTx 0 [(1, ⟨0, 0, []⟩)]
        [⟨0, 100, []⟩, ⟨0, 0, []⟩] 7 =
      some ⟨[(1, ⟨0, 0, []⟩)], [⟨0, 50, []⟩, ⟨0, 50, []⟩], .ok ()⟩ :=
  ((claim_C5 [(3, identityHandler)] [(0, identityHandler)] transferHandler
      identityHandler sysTransferTx 0 [(1, ⟨0, 0, []⟩)]
      [⟨0, 100, []⟩, ⟨0, 0, []⟩] 7
      (by intro e he; simp only [List.mem_singleton] at he; rw [he]; decide)
      (by simp)).1).trans (by decide)

/-- C9: when the registry matches the instruction's program id,
`process_instruction` removes the first element of the combined
keyed-account slice unconditionally: with an empty loader slot and a
nonempty account list the handler receives the instruction's keyed accounts
*without* the first one; and with an empty loader slot and an empty account
list the slice of the empty vector panics (embedded as `none`). -/
theorem claim_C9 (pre rest : Runtime) (h : ProcessInstruction)
    (native_loader : ProcessInstruction) (tx : Transaction) (i : Nat)
    (pa : List Account) (tick : Nat)
    (hpre : ∀ e ∈ pre, e.1 ≠ tx.program_id i) :
    ((tx.instructions.getD i default).accounts ≠ [] → pa ≠ [] →
      process_instruction (pre ++ (tx.program_id i, h) :: rest) native_loader
          tx i [] pa tick =
        some (splitOutcome [] pa
          ((keyed_program_accounts tx i pa).take 1 ++
            writeSlice ((keyed_program_accounts tx i pa).drop 1)
              (h (tx.program_id i) ((keyed_program_accounts tx i pa).drop 1)
                (tx.instructions.getD i default).data tick).1)
          (h (tx.program_id i) ((keyed_program_accounts tx i pa).drop 1)
            (tx.instructions.getD i default).data tick).2)) ∧
    ((tx.instructions.getD i default).accounts = [] → pa = [] →
      process_instruction (pre ++ (tx.program_id i, h) :: rest) native_loader
          tx i [] pa tick = none) := by
  constructor
  · intro hacc hpa
    obtain ⟨x, xs, hx⟩ := List.exists_cons_of_ne_nil hacc
    obtain ⟨p, ps, rfl⟩ := List.exists_cons_of_ne_nil hpa
    simp only [process_instruction, find?_first_match pre rest _ h hpre]
    simp [create_keyed_accounts, keyed_program_accounts, hx]
    simpa [List.getD] using hacc
  · intro hacc hpa
    subst hpa
    simp only [process_instruction, find?_first_match pre rest _ h hpre]
    simp [create_keyed_accounts, keyed_program_accounts, hacc]

/-- A transaction with no account keys and one instruction naming no
accounts. -/
def emptyAccountsTx : Transaction :=
  { account_keys := [], num_signatures := 0, program_ids := [0],
    instructions := [⟨0, [], []⟩] }

/-- Witness for C9 at concrete inputs: with an empty loader slot a matched
identity handler still leaves the two listed accounts unchanged (it simply
never sees the first one), and with an empty account list as well the call
panics (`none`). -/
theorem claim_C9_witness :
    process_instruction [(0, identityHandler)] identityHandler giveawayTx 0
        [] [⟨1, 10, []⟩, ⟨0, 0, []⟩] 0 =
      some ⟨[], [⟨1, 10, []⟩, ⟨0, 0, []⟩], .ok ()⟩ ∧
    process_instruction [(0, identityHandler)] identityHandler emptyAccountsTx 0
        [] [] 0 = none :=
  ⟨((claim_C9 [] [] identityHandler identityHandler giveawayTx 0
       [⟨1, 10, []⟩, ⟨0, 0, []⟩] 0 (by simp)).1 (by decide) (by simp)).trans
     (by decide),
   (claim_C9 [] [] identityHandler identityHandler emptyAccountsTx 0 [] 0
      (by simp)).2 (by decide) rfl⟩

/-! ## Claim C4: transaction-level ordering, first failure, index labelling -/

theorem process_instruction_congr (rt : Runtime)
    (native_loader : ProcessInstruction) (tx₁ tx₂ : Transaction) (i : Nat)
    (hk : tx₁.account_keys = tx₂.account_keys)
    (hs : tx₁.num_signatures = tx₂.num_signatures)
    (hp : tx₁.program_ids = tx₂.program_ids)
    (hi : tx₁.instructions.getD i default = tx₂.instructions.getD i default)
    (ea : List (Pubkey × Account)) (pa : List Account) (tick : Nat) :
    process_instruction rt native_loader tx₁ i ea pa tick =
      process_instruction rt native_loader tx₂ i ea pa tick := by
  have hpid : tx₁.program_id i = tx₂.program_id i := by
    simp only [Transaction.program_id, hp, hi]
  have hkpa : keyed_program_accounts tx₁ i pa = keyed_program_accounts tx₂ i pa := by
    simp only [keyed_program_accounts, hk, hs, hi]
  simp only [process_instruction, hpid, hkpa, hi]

theorem execute_instruction_congr (rt : Runtime)
    (native_loader : ProcessInstruction) (tx₁ tx₂ : Transaction) (i : Nat)
    (hk : tx₁.account_keys = tx₂.account_keys)
    (hs : tx₁.num_signatures = tx₂.num_signatures)
    (hp : tx₁.program_ids = tx₂.program_ids)
    (hi : tx₁.instructions.getD i default = tx₂.instructions.getD i default)
    (ea : List (Pubkey × Account)) (pa : List Account) (tick : Nat) :
    execute_instruction rt native_loader tx₁ i ea pa tick =
      execute_instruction rt native_loader tx₂ i ea pa tick := by
  have hpid : tx₁.program_id i = tx₂.program_id i := by
    simp only [Transaction.program_id, hp, hi]
  simp only [execute_instruction,
    process_instruction_congr rt native_loader tx₁ tx₂ i hk hs hp hi ea pa tick,
    hpid]

theorem execute_instructions_congr (rt : Runtime)
    (native_loader : ProcessInstruction) (tx₁ tx₂ : Transaction) (tick : Nat)
    (hk : tx₁.account_keys = tx₂.account_keys)
    (hs : tx₁.num_signatures = tx₂.num_signatures)
    (hp : tx₁.program_ids = tx₂.program_ids) :
    ∀ (L : List Instruction) (b : Nat) (st : TxState),
      (∀ j, b ≤ j → j < b + L.length →
        tx₁.instructions.getD j default = tx₂.instructions.getD j default) →
      execute_instructions rt native_loader tx₁ tick b L st =
        execute_instructions rt native_loader tx₂ tick b L st := by
  intro L
  induction L with
  | nil => intro b st hj; rfl
  | cons inst rest ih =>
    intro b st hj
    have hi : tx₁.instructions.getD b default = tx₂.instructions.getD b default :=
      hj b le_rfl (by simp)
    have hone := execute_instruction_congr rt native_loader tx₁ tx₂ b hk hs hp hi
    cases hg : get_subset_unchecked_mut st.accounts inst.accounts with
    | error e => simp only [execute_instructions, hg]
    | ok pas =>
      simp only [execute_instructions, hg]
      rw [hone]
      cases he : execute_instruction rt native_loader tx₂ b
          (st.loaders.getD inst.program_ids_index []) pas tick with
      | none => rfl
      | some o =>
        obtain ⟨oea, opa, ores⟩ := o
        cases ores with
        | error e => rfl
        | ok u =>
          exact ih (b + 1) _ fun j h1 h2 => hj j (by omega) (by simp; omega)

theorem execute_instructions_first_error (rt : Runtime)
    (native_loader : ProcessInstruction) (tx : Transaction) (tick : Nat) :
    ∀ (L : List Instruction) (b : Nat) (st st' : TxState) (k : Nat)
      (err : InstructionError),
      execute_instructions rt native_loader tx tick b L st =
        some (st', .error (.InstructionError k err)) →
      ∃ n, n < L.length ∧ k = (b + n) % 256 ∧
        (∃ st0, execute_instructions rt native_loader tx tick b (L.take n) st =
          some (st0, .ok ())) ∧
        execute_instructions rt native_loader tx tick b (L.take (n + 1)) st =
          some (st', .error (.InstructionError k err)) ∧
        (has_duplicates (L.getD n default).accounts = true →
          err = .DuplicateAccountIndex) := by
  intro L
  induction L with
  | nil =>
    intro b st st' k err hrun
    simp [execute_instructions] at hrun
  | cons inst rest ih =>
    intro b st st' k err hrun
    cases hg : get_subset_unchecked_mut st.accounts inst.accounts with
    | error e =>
      have he : e = .DuplicateAccountIndex := by
        unfold get_subset_unchecked_mut at hg
        split at hg <;> simp_all
      subst he
      simp only [execute_instructions, hg, Option.some.injEq, Prod.mk.injEq,
        Except.error.injEq, TransactionError.InstructionError.injEq] at hrun
      obtain ⟨hst, hk1, herr⟩ := hrun
      subst hst
      subst hk1
      subst herr
      refine ⟨0, by simp, by simp, ⟨st, rfl⟩, ?_, fun _ => rfl⟩
      simp only [List.take_succ_cons, List.take_zero, execute_instructions, hg]
    | ok pas =>
      have hnodup : has_duplicates inst.accounts = false := by
        unfold get_subset_unchecked_mut at hg
        split at hg <;> simp_all
      cases he : execute_instruction rt native_loader tx b
          (st.loaders.getD inst.program_ids_index []) pas tick with
      | none =>
        simp only [execute_instructions, hg, he] at hrun
        exact Option.noConfusion hrun
      | some o =>
        obtain ⟨oea, opa, ores⟩ := o
        cases ores with
        | error e =>
          simp only [execute_instructions, hg, he, Option.some.injEq,
            Prod.mk.injEq, Except.error.injEq,
            TransactionError.InstructionError.injEq] at hrun
          obtain ⟨hst, hk1, herr⟩ := hrun
          subst hst
          subst hk1
          subst herr
          refine ⟨0, by simp, by simp, ⟨st, rfl⟩, ?_, fun hdup => ?_⟩
          · simp only [List.take_succ_cons, List.take_zero,
              execute_instructions, hg, he]
          · simp only [List.getD_cons_zero, hnodup] at hdup
            exact absurd hdup (by simp)
        | ok u =>
          cases u
          simp only [execute_instructions, hg, he] at hrun
          obtain ⟨n, hn, hk2, ⟨st0, h0⟩, htake, hdup⟩ :=
            ih (b + 1) _ st' k err hrun
          refine ⟨n + 1, by simpa using hn, by rw [hk2]; congr 1; omega,
            ⟨st0, ?_⟩, ?_, by simpa using hdup⟩
          · simp only [List.take_succ_cons, execute_instructions, hg, he]
            exact h0
          · simp only [List.take_succ_cons, execute_instructions, hg, he]
            exact htake

/-- C4 (amended): `execute_transaction` processes instructions strictly in
declared order, and every failing run has a first failing instruction `n`:
the first `n` instructions all succeed, the whole run coincides with the run
of the transaction truncated after instruction `n` (so instructions with
index greater than `n` are never attempted and have no effect on the account
array), the reported error is `InstructionError(n % 256, kind)` — the source
casts the index with `as u8`, so it wraps at 256 rather than always equaling
`n` — and when instruction `n`'s subset construction fails the kind is
`DuplicateAccountIndex`. -/
theorem claim_C4 (rt : Runtime) (native_loader : ProcessInstruction)
    (tx : Transaction) (loaders : List (List (Pubkey × Account)))
    (tx_accounts : List Account) (tick : Nat) (st' : TxState) (k : Nat)
    (err : InstructionError)
    (h : execute_transaction rt native_loader tx loaders tx_accounts tick =
      some (st', .error (.InstructionError k err))) :
    ∃ n, n < tx.instructions.length ∧ k = n % 256 ∧
      (∃ st0, execute_transaction rt native_loader
          { tx with instructions := tx.instructions.take n }
          loaders tx_accounts tick = some (st0, .ok ())) ∧
      execute_transaction rt native_loader
          { tx with instructions := tx.instructions.take (n + 1) }
          loaders tx_accounts tick =
        some (st', .error (.InstructionError k err)) ∧
      (has_duplicates (tx.instructions.getD n default).accounts = true →
        err = .DuplicateAccountIndex) := by
  obtain ⟨n, hn, hk, ⟨st0, h0⟩, htake, hdup⟩ :=
    execute_instructions_first_error rt native_loader tx tick
      tx.instructions 0 ⟨loaders, tx_accounts⟩ st' k err h
  have hcongr : ∀ m,
      execute_instructions rt native_loader
        { tx with instructions := tx.instructions.take m } tick 0
        (tx.instructions.take m) ⟨loaders, tx_accounts⟩ =
      execute_instructions rt native_loader tx tick 0
        (tx.instructions.take m) ⟨loaders, tx_accounts⟩ := by
    intro m
    refine execute_instructions_congr rt native_loader
      { tx with instructions := tx.instructions.take m } tx tick rfl rfl rfl
      (tx.instructions.take m) 0 ⟨loaders, tx_accounts⟩ ?_
    intro j h1 h2
    have hjm : j < m := by
      simp only [List.length_take] at h2
      omega
    show (tx.instructions.take m).getD j default = tx.instructions.getD j default
    simp [List.getD, List.getElem?_take, hjm]
  refine ⟨n, hn, by simpa using hk, ⟨st0, ?_⟩, ?_, hdup⟩
  · show execute_instructions rt native_loader
        { tx with instructions := tx.instructions.take n } tick 0
        (tx.instructions.take n) ⟨loaders, tx_accounts⟩ = some (st0, .ok ())
    rw [hcongr n]
    exact h0
  · show execute_instructions rt native_loader
        { tx with instructions := tx.instructions.take (n + 1) } tick 0
        (tx.instructions.take (n + 1)) ⟨loaders, tx_accounts⟩ =
      some (st', .error (.InstructionError k err))
    rw [hcongr (n + 1)]
    exact htake

/-- A transaction whose single instruction names account index 0 twice. -/
def dupIdxTx : Transaction :=
  { account_keys := [7], num_signatures := 0, program_ids := [0],
    instructions := [⟨0, [0, 0], []⟩] }

/-- Witness for C4 (amended) at a concrete input: a one-instruction
transaction whose instruction repeats account index 0 fails at the first
instruction with `InstructionError(0, DuplicateAccountIndex)`, with the empty
prefix succeeding. -/
theorem claim_C4_witness :
    ∃ n, n < dupIdxTx.instructions.length ∧ (0 : Nat) = n % 256 ∧
      (∃ st0, execute_transaction [] identityHandler
          { dupIdxTx with instructions := dupIdxTx.instructions.take n } [[]]
          [⟨0, 5, []⟩] 0 = some (st0, .ok ())) ∧
      execute_transaction [] identityHandler
          { dupIdxTx with instructions := dupIdxTx.instructions.take (n + 1) }
          [[]] [⟨0, 5, []⟩] 0 =
        some (⟨[[]], [⟨0, 5, []⟩]⟩,
          .error (.InstructionError 0 .DuplicateAccountIndex)) ∧
      (has_duplicates (dupIdxTx.instructions.getD n default).accounts = true →
        InstructionError.DuplicateAccountIndex = .DuplicateAccountIndex) :=
  claim_C4 [] identityHandler dupIdxTx [[]] [⟨0, 5, []⟩] 0
    ⟨[[]], [⟨0, 5, []⟩]⟩ 0 .DuplicateAccountIndex (by decide)

/-- An instruction that does nothing: empty account list, empty data. -/
def okInstruction : Instruction := ⟨0, [], []⟩

/-- An instruction naming account index 0 twice. -/
def dupInstruction : Instruction := ⟨0, [0, 0], []⟩

/-- A transaction of 257 instructions: 256 harmless ones followed by one
with a duplicate account index at position 256. -/
def longTx : Transaction :=
  { account_keys := [7], num_signatures := 0, program_ids := [9],
    instructions := List.replicate 256 okInstruction ++ [dupInstruction] }

set_option maxRecDepth 100000 in
/-- Counterexample to C4 as stated: in a 257-instruction transaction whose
first 256 instructions all succeed (the truncated run returns success) and
whose instruction at index 256 fails with a duplicate account index, the
error is reported as `InstructionError(0, DuplicateAccountIndex)` — the `as
u8` cast wraps the failing index 256 to 0, so the reported index is not the
failing instruction's index. -/
theorem claim_C4_counterexample :
    execute_transaction [] identityHandler longTx [[]] [⟨0, 5, []⟩] 0 =
      some (⟨[[]], [⟨0, 5, []⟩]⟩,
        .error (.InstructionError 0 .DuplicateAccountIndex)) ∧
    execute_transaction [] identityHandler
        { longTx with instructions := longTx.instructions.take 256 } [[]]
        [⟨0, 5, []⟩] 0 = some (⟨[[]], [⟨0, 5, []⟩]⟩, .ok ()) ∧
    longTx.instructions.length = 257 := by
  refine ⟨?_, ?_, ?_⟩ <;> decide

end SolanaRuntime
